import Mathlib

/-
Verification development for meeko/analysis/fingerprint_interactions.py.

The Python module is shallowly embedded below.  Numeric values are modelled
over the real numbers; the one float behaviour that matters to the module
(division of a zero vector by its zero norm producing NaN, which then makes
every `>=` comparison evaluate to False) is modelled explicitly by letting
the angle computation return `Option ℝ`, where `none` is the NaN marker and
`nanGe none c = false` mirrors IEEE comparison semantics.  Python exceptions
(dict KeyError on an unknown atom type, TypeError from
pandas.MultiIndex.from_tuples on an empty list, KeyError in the one-hot
encoder) are modelled with `Option`: `none` is a raised exception.
External collaborators (receptor object, pose objects, bond graph) are
modelled as records of total functions, exactly the interface the module
consumes.
-/

/- 3D vector, the shape of every `xyz` coordinate handled by the module. -/
structure Vec3 where
  x : ℝ
  y : ℝ
  z : ℝ

def vsub (a b : Vec3) : Vec3 := ⟨a.x - b.x, a.y - b.y, a.z - b.z⟩

def dotV (a b : Vec3) : ℝ := a.x * b.x + a.y * b.y + a.z * b.z

/- np.linalg.norm of a 3-vector: square root of the sum of squares. -/
noncomputable def normV (v : Vec3) : ℝ := Real.sqrt (v.x * v.x + v.y * v.y + v.z * v.z)

noncomputable def vdiv (v : Vec3) (c : ℝ) : Vec3 := ⟨v.x / c, v.y / c, v.z / c⟩

/- np.mean(xyz, axis=0) over a list of points. -/
noncomputable def vmean (l : List Vec3) : Vec3 :=
  ⟨(l.map (fun v => v.x)).sum / l.length,
   (l.map (fun v => v.y)).sum / l.length,
   (l.map (fun v => v.z)).sum / l.length⟩

/-
_compute_angle(v1, v2): unit_vector_i = v_i / norm(v_i); arccos of the dot
product.  When a vector has zero magnitude numpy evaluates 0/0 to NaN and the
NaN propagates through the dot product and arccos; `none` is that NaN marker.
For nonzero vectors real arithmetic keeps the dot product of unit vectors in
[-1, 1], so arccos is the exact value numpy approximates.
-/
noncomputable def compute_angle (v1 v2 : Vec3) : Option ℝ :=
  if normV v1 = 0 ∨ normV v2 = 0 then none
  else some (Real.arccos (dotV (vdiv v1 (normV v1)) (vdiv v2 (normV v2))))

/- np.degrees, mapped over the NaN marker (np.degrees(nan) = nan). -/
noncomputable def optDegrees (a : Option ℝ) : Option ℝ :=
  a.map (fun x => x * 180 / Real.pi)

/- Comparison `a >= c` where `a` may be NaN: any comparison with NaN is False. -/
noncomputable def nanGe (a : Option ℝ) (c : ℝ) : Bool :=
  match a with
  | none => false
  | some x => decide (c ≤ x)

/-
_is_valid_hydrogen_bond, generalized over the angle routine `ang` so that
theorems can quantify over every possible angle outcome (the source calls
compute_angle; see is_valid_hydrogen_bond below).  Arguments follow the
source: atom_acc_1, atom_acc_2 (nullable), atom_don_1 (nullable), atom_don_2,
hb_criteria (a list, indexed at 0, 1, 2).  The branch where both nullable
arguments are None reads the never-assigned local angle_1 and raises in
Python; it is `none` here (no call site reaches it).  The result in the other
branches is the Python bool `(angle_1 >= crit[1]) & (angle_2 >= crit[2])`.
-/
noncomputable def is_valid_hydrogen_bond_with
    (ang : Vec3 → Vec3 → Option ℝ)
    (acc1 : Vec3) (acc2 : Option Vec3) (don1 : Option Vec3) (don2 : Vec3)
    (crit : List ℝ) : Option Bool :=
  let distance := normV (vsub acc1 don2)
  if distance ≤ crit.getD 0 0 then
    match don1, acc2 with
    | some d1, some a2 =>
        some (nanGe (optDegrees (ang (vsub don2 d1) (vsub acc1 d1))) (crit.getD 1 0)
              && nanGe (optDegrees (ang (vsub a2 acc1) (vsub d1 acc1))) (crit.getD 2 0))
    | none, some a2 =>
        some ((decide (crit.getD 1 0 ≤ (180 : ℝ)))
              && nanGe (optDegrees (ang (vsub a2 acc1) (vsub don2 acc1))) (crit.getD 2 0))
    | some d1, none =>
        some (nanGe (optDegrees (ang (vsub don2 d1) (vsub acc1 d1))) (crit.getD 1 0)
              && decide (crit.getD 2 0 ≤ (180 : ℝ)))
    | none, none => none
  else
    some false

/- The source validator: the generalized form applied to compute_angle. -/
noncomputable def is_valid_hydrogen_bond
    (acc1 : Vec3) (acc2 : Option Vec3) (don1 : Option Vec3) (don2 : Vec3)
    (crit : List ℝ) : Option Bool :=
  is_valid_hydrogen_bond_with compute_angle acc1 acc2 don1 don2 crit

/- atom_property_definitions, the module-level dict; lookup of a key absent
from it is a Python KeyError, hence the Option result of List.lookup. -/
def atom_property_definitions : List (String × String) :=
  [("H", "vdw"), ("C", "vdw"), ("A", "vdw"), ("N", "vdw"), ("P", "vdw"), ("S", "vdw"),
   ("Br", "vdw"), ("I", "vdw"), ("F", "vdw"),
   ("NA", "hb_acc"), ("OA", "hb_acc"), ("SA", "hb_acc"), ("OS", "hb_acc"), ("NS", "hb_acc"),
   ("HD", "hb_don"), ("HS", "hb_don"),
   ("Cl", "non-metal"),
   ("Mg", "metal"), ("Ca", "metal"), ("Fe", "metal"), ("Zn", "metal"), ("Mn", "metal"),
   ("W", "water"),
   ("G0", "glue"), ("G1", "glue"), ("G2", "glue"), ("G3", "glue"),
   ("CG0", "glue"), ("CG1", "glue"), ("CG2", "glue"), ("CG3", "glue")]

/- self._max_distance, fixed in __init__. -/
noncomputable def maxDistance : ℝ := 4.2

/- self._criteria, fixed in __init__ (immutable afterwards). -/
noncomputable def criteria_table : List (String × List ℝ) :=
  [("hb_acc", [3.2, 120, 90]), ("hb_don", [3.2, 120, 90]),
   ("all", [4.2]), ("vdw", [4.2]),
   ("water", [3.2, 120, 90]),
   ("reactive", [2.0])]

/- self._criteria[k]; every key the classifier uses is present, so the
KeyError default is never observed. -/
noncomputable def criteriaOf (k : String) : List ℝ :=
  (criteria_table.lookup k).getD []

/- Atom record: the named fields of the numpy structured array rows the
module reads. -/
structure Atom where
  xyz : Vec3
  atomType : String
  chain : String
  resid : Int
  name : String
  idx : Nat

/- Bonded-neighbor interface: neighborAtoms i is neighbor_atoms(i)[0] of the
source (the neighbor index list of the single queried atom), and atoms maps
index lists back to atom records. -/
structure BondProvider where
  neighborAtoms : Nat → List Nat
  atoms : List Nat → List Atom

/- PDBQTReceptor interface consumed by run. -/
structure Receptor where
  closestAtomsFromPositions : Vec3 → ℝ → List Atom
  bonds : BondProvider

/- One pose object yielded by iterating a PDBQTMolecule. -/
structure Pose where
  name : String
  poseId : Int
  hasWaterMolecules : Bool
  atomsByProperties : List String → List Atom
  closestAtomsFromPositions : Vec3 → ℝ → List String → List Atom
  bonds : BondProvider

/- PDBQTMolecule: the flexible-residue flag plus its poses, in order. -/
structure Molecule where
  hasFlexibleResidues : Bool
  poses : List Pose

/- The hb vector of a directional atom: centroid of its bonded neighbors. -/
noncomputable def hbVectorOf (bp : BondProvider) (i : Nat) : Vec3 :=
  vmean ((bp.atoms (bp.neighborAtoms i)).map (fun a => a.xyz))

def vdwLabelOf (a : Atom) : String := "v_" ++ a.chain ++ ":" ++ toString a.resid

def hbLabelOf (a : Atom) : String :=
  "h_" ++ a.chain ++ ":" ++ toString a.resid ++ ":" ++ a.name

def waterLabelOf (a : Atom) : String := "w_" ++ a.chain ++ ":" ++ toString a.resid

/- Shape of the validator as the classifier calls it. -/
abbrev HBValid := Vec3 → Option Vec3 → Option Vec3 → Vec3 → List ℝ → Option Bool

/-
The per-pose classification loop of FingerprintInteractions.run, generalized
over the validator (run itself instantiates valid := is_valid_hydrogen_bond).
The accumulator is (tmp_hb, tmp_vdw, tmp_water); `none` models an exception
escaping the loop (KeyError on an unrecognized atom type).  The hb vectors
are bound eagerly here while Python computes them only for hb_acc/hb_don
atoms; they are pure values read exactly in the branches where Python has
them, so the results coincide.  The source guard `if rec_atoms.size > 0`
only skips an empty inner loop and is dropped.
-/
noncomputable def classifyPose (valid : HBValid) (receptor : Receptor)
    (hasFlex : Bool) (pose : Pose) :
    Option (List String × List String × List String) :=
  let ligAtoms := pose.atomsByProperties ["ligand"] ++
    (if pose.hasWaterMolecules then pose.atomsByProperties ["water"] else [])
  ligAtoms.foldlM (fun acc ligAtom => do
    let partitions : List (BondProvider × List Atom) :=
      (receptor.bonds, receptor.closestAtomsFromPositions ligAtom.xyz maxDistance) ::
      (if hasFlex then
        [(pose.bonds, pose.closestAtomsFromPositions ligAtom.xyz maxDistance ["flexible_residue"])]
       else [])
    let ligProp ← atom_property_definitions.lookup ligAtom.atomType
    let ligHbVec := hbVectorOf pose.bonds ligAtom.idx
    partitions.foldlM (fun acc1 part =>
      part.2.foldlM (fun acc2 recAtom => do
        let recProp ← atom_property_definitions.lookup recAtom.atomType
        let recHbVec := hbVectorOf part.1 recAtom.idx
        if ligProp = "vdw" ∧ recProp = "vdw" then
          pure (acc2.1, acc2.2.1 ++ [vdwLabelOf recAtom], acc2.2.2)
        else if ligProp = "hb_don" ∧ recProp = "hb_acc" then do
          let good ← valid recAtom.xyz (some recHbVec) (some ligAtom.xyz) ligHbVec
            (criteriaOf ligProp)
          pure (if good then (acc2.1 ++ [hbLabelOf recAtom], acc2.2.1, acc2.2.2) else acc2)
        else if ligProp = "hb_acc" ∧ recProp = "hb_don" then do
          let good ← valid ligAtom.xyz (some ligHbVec) (some recAtom.xyz) recHbVec
            (criteriaOf ligProp)
          pure (if good then (acc2.1 ++ [hbLabelOf recAtom], acc2.2.1, acc2.2.2) else acc2)
        else if ligProp = "water" then do
          let good ←
            if recProp = "hb_don" then
              valid ligAtom.xyz none (some recAtom.xyz) recHbVec (criteriaOf ligProp)
            else if recProp = "hb_acc" then
              valid recAtom.xyz (some recHbVec) none ligAtom.xyz (criteriaOf ligProp)
            else pure false
          pure (if good then (acc2.1, acc2.2.1, acc2.2.2 ++ [waterLabelOf recAtom]) else acc2)
        else
          pure acc2) acc1) acc)
    ([], [], [])

/- One per-pose record of self._data:
(pose.name, pose.pose_id, list(tmp_hb), list(tmp_vdw), list(tmp_water)). -/
structure PoseRecord where
  name : String
  poseId : Int
  hb : List String
  vdw : List String
  water : List String
  deriving DecidableEq

/- self._unique_interactions: one Python set per interaction type, modelled
as duplicate-free lists (set iteration order is unspecified in Python; the
encoder is proven order-independent separately). -/
structure UniqueInteractions where
  hb : List String
  vdw : List String
  water : List String
  reactive : List String
  deriving DecidableEq

/- Python set.update: adjoin the labels not already present. -/
def setUpdate (u adds : List String) : List String :=
  u ++ adds.filter (fun x => decide (¬ x ∈ u))

/- The mutable state of a FingerprintInteractions object. -/
structure FPIState where
  data : List PoseRecord
  uniq : UniqueInteractions
  receptor : Receptor

/- FingerprintInteractions.__init__. -/
def FingerprintInteractions.mk0 (receptor : Receptor) : FPIState :=
  { data := [], uniq := { hb := [], vdw := [], water := [], reactive := [] },
    receptor := receptor }

/- The three set.update lines of run: merge the deduplicated per-pose label
lists (Python set(tmp_*)) into self._unique_interactions. -/
def uniqStep (uniq : UniqueInteractions)
    (tmp : List String × List String × List String) : UniqueInteractions :=
  { hb := setUpdate uniq.hb tmp.1.dedup, vdw := setUpdate uniq.vdw tmp.2.1.dedup,
    water := setUpdate uniq.water tmp.2.2.dedup, reactive := uniq.reactive }

/- The tuple appended to the local data list for one pose. -/
def recStep (pose : Pose) (tmp : List String × List String × List String) : PoseRecord :=
  { name := pose.name, poseId := pose.poseId,
    hb := tmp.1.dedup, vdw := tmp.2.1.dedup, water := tmp.2.2.dedup }

/-
The pose loop of run: classify each pose, deduplicate the label lists
(Python set()), merge them into the vocabulary, and append the record to the
local list.  The Bool is False when an exception escaped a classification;
the vocabulary then keeps the updates of the completed poses while the local
record list is abandoned by the caller.
-/
noncomputable def runPoses (valid : HBValid) (receptor : Receptor) (hasFlex : Bool) :
    UniqueInteractions → List PoseRecord → List Pose →
    UniqueInteractions × List PoseRecord × Bool
  | uniq, acc, [] => (uniq, acc, true)
  | uniq, acc, pose :: rest =>
    match classifyPose valid receptor hasFlex pose with
    | none => (uniq, acc, false)
    | some tmp =>
      runPoses valid receptor hasFlex (uniqStep uniq tmp) (acc ++ [recStep pose tmp]) rest

/- The molecule loop of run. -/
noncomputable def runMolecules (valid : HBValid) (receptor : Receptor) :
    UniqueInteractions → List PoseRecord → List Molecule →
    UniqueInteractions × List PoseRecord × Bool
  | uniq, acc, [] => (uniq, acc, true)
  | uniq, acc, mol :: rest =>
    match runPoses valid receptor mol.hasFlexibleResidues uniq acc mol.poses with
    | (uniq2, acc2, true) => runMolecules valid receptor uniq2 acc2 rest
    | (uniq2, acc2, false) => (uniq2, acc2, false)

/-
FingerprintInteractions.run on an already-listed molecules argument,
generalized over the validator.  On success self._data.extend(data) runs; on
an exception the local list is lost while self._unique_interactions keeps
every update made before the raise.  The Bool reports success.
-/
noncomputable def runWith (valid : HBValid) (s : FPIState) (mols : List Molecule) :
    FPIState × Bool :=
  match runMolecules valid s.receptor s.uniq [] mols with
  | (uniq2, local2, true) => ({ s with uniq := uniq2, data := s.data ++ local2 }, true)
  | (uniq2, _, false) => ({ s with uniq := uniq2 }, false)

/- FingerprintInteractions.run of the source. -/
noncomputable def FingerprintInteractions.run (s : FPIState) (mols : List Molecule) :
    FPIState × Bool :=
  runWith is_valid_hydrogen_bond s mols

/- States a FingerprintInteractions object can be in: freshly constructed,
or the outcome of any run call (successful or not) on a reachable state. -/
inductive FingerprintInteractions.Reachable : FPIState → Prop where
  | mk0 : ∀ receptor, FingerprintInteractions.Reachable (FingerprintInteractions.mk0 receptor)
  | step : ∀ s mols, FingerprintInteractions.Reachable s →
      FingerprintInteractions.Reachable (FingerprintInteractions.run s mols).1

/-
resid_to_idx_encoder: the dict built by assigning `encoder[label] = count`
with a running count over the concatenated vocabulary lists.  A later
assignment overrides an earlier one, exactly as in a Python dict; a missing
key is a KeyError, hence none.
-/
def encoderOf : List String → String → Option Nat
  | [], _ => none
  | l :: rest, x =>
    match encoderOf rest x with
    | some k => some (k + 1)
    | none => if x = l then some 0 else none

/- The pandas DataFrame returned by to_dataframe, reduced to the data the
claims observe: the two column levels, the (name, pose) row index, and the
0/1 matrix, all in DataFrame order. -/
structure DataFrameModel where
  colTypes : List String
  colNames : List String
  index : List (String × Int)
  values : List (List Nat)
  deriving DecidableEq

/- columns[0] of to_dataframe: the interaction type repeated once per label,
in dict insertion order hb, vdw, water, reactive. -/
def colTypesOf (hbE vdwE waterE reactE : List String) : List String :=
  hbE.map (fun _ => "hb") ++ vdwE.map (fun _ => "vdw") ++
  waterE.map (fun _ => "water") ++ reactE.map (fun _ => "reactive")

/- One row of the fpi matrix: look every label of the pose up in the encoder
dict (a missing label is a KeyError) and set those cells to 1. -/
def rowOf (allLabels : List String) (rec : PoseRecord) : Option (List Nat) :=
  ((rec.hb ++ rec.vdw ++ rec.water).mapM (encoderOf allLabels)).map
    (fun idxs =>
      (List.range allLabels.length).map (fun j => if j ∈ idxs then 1 else 0))

/- The column positions that survive `df.loc[:, df.sum(axis=0) != 0]`. -/
def keepOf (n : Nat) (rows : List (List Nat)) : List Nat :=
  (List.range n).filter
    (fun j => decide ((rows.map (fun row => row.getD j 0)).sum ≠ 0))

/-
FingerprintInteractions.to_dataframe on explicit vocabulary enumerations
(Python iterates each set of self._unique_interactions in an unspecified
order; the dict itself iterates in insertion order hb, vdw, water, reactive).
Steps, mirroring the source: build columns[0]/columns[1] and the encoder
dict; pandas.MultiIndex.from_tuples raises TypeError on an empty tuple list
(none); fill the zero matrix row by row, looking every pose label up in the
encoder dict (KeyError: none); drop the columns whose sum over all rows is
zero; attach names and pose_id + 1 as the row index.
-/
def toDataframeFrom (data : List PoseRecord)
    (hbE vdwE waterE reactE : List String) : Option DataFrameModel :=
  let allLabels := hbE ++ vdwE ++ waterE ++ reactE
  let colTypes0 := colTypesOf hbE vdwE waterE reactE
  let colNames0 := allLabels.map (fun r => r.drop 2)
  if allLabels.length = 0 then none
  else
    match data.mapM (rowOf allLabels) with
    | none => none
    | some rows =>
      let keep := keepOf allLabels.length rows
      some { colTypes := keep.map (fun j => colTypes0.getD j ""),
             colNames := keep.map (fun j => colNames0.getD j ""),
             index := data.map (fun rec => (rec.name, rec.poseId + 1)),
             values := rows.map (fun row => keep.map (fun j => row.getD j 0)) }

/- FingerprintInteractions.to_dataframe of the source, reading the
accumulated state. -/
def FingerprintInteractions.to_dataframe (s : FPIState) : Option DataFrameModel :=
  toDataframeFrom s.data s.uniq.hb s.uniq.vdw s.uniq.water s.uniq.reactive

/- Observation of a DataFrame as an unordered column collection: each column
is its (type, name) header paired with its cell vector down the rows. -/
def columnsOf (df : DataFrameModel) : List ((String × String) × List Nat) :=
  (List.range df.colTypes.length).map (fun k =>
    ((df.colTypes.getD k "", df.colNames.getD k ""),
     df.values.map (fun row => row.getD k 0)))

/- The vocabulary enumeration tagged with its interaction type, in the dict
iteration order of to_dataframe. -/
def typedLabels (hbE vdwE waterE reactE : List String) : List (String × String) :=
  hbE.map (fun l => ("hb", l)) ++ vdwE.map (fun l => ("vdw", l)) ++
  waterE.map (fun l => ("water", l)) ++ reactE.map (fun l => ("reactive", l))

/- The labels a recorded pose sets to 1, in the order the encoder reads them. -/
def recLabels (rec : PoseRecord) : List String := rec.hb ++ rec.vdw ++ rec.water

/- The cell vector of the column of a label: one 0/1 entry per pose. -/
def memVec (data : List PoseRecord) (lab : String) : List Nat :=
  data.map (fun rec => if lab ∈ recLabels rec then 1 else 0)

/- Componentwise containment of vocabularies. -/
def uniqLe (u v : UniqueInteractions) : Prop :=
  u.hb ⊆ v.hb ∧ u.vdw ⊆ v.vdw ∧ u.water ⊆ v.water ∧ u.reactive ⊆ v.reactive

/- A pose record whose three label sets are inside a vocabulary. -/
def recordSub (r : PoseRecord) (u : UniqueInteractions) : Prop :=
  r.hb ⊆ u.hb ∧ r.vdw ⊆ u.vdw ∧ r.water ⊆ u.water

/- Concrete fixtures used by the witness theorems below. -/

def wZero : Vec3 := ⟨0, 0, 0⟩

def wBonds : BondProvider := { neighborAtoms := fun _ => [], atoms := fun _ => [] }

def wRecAtom : Atom :=
  { xyz := wZero, atomType := "C", chain := "A", resid := 1, name := "CA", idx := 0 }

def wLigAtom : Atom :=
  { xyz := wZero, atomType := "C", chain := "L", resid := 1, name := "C1", idx := 0 }

/- Atom whose type is not a key of atom_property_definitions. -/
def wBadAtom : Atom :=
  { xyz := wZero, atomType := "X", chain := "L", resid := 1, name := "C1", idx := 0 }

def wReceptor : Receptor :=
  { closestAtomsFromPositions := fun _ _ => [wRecAtom], bonds := wBonds }

def wPose : Pose :=
  { name := "p", poseId := 0, hasWaterMolecules := false,
    atomsByProperties := fun props => if props = ["ligand"] then [wLigAtom] else [],
    closestAtomsFromPositions := fun _ _ _ => [], bonds := wBonds }

def wBadPose : Pose :=
  { name := "p", poseId := 1, hasWaterMolecules := false,
    atomsByProperties := fun props => if props = ["ligand"] then [wBadAtom] else [],
    closestAtomsFromPositions := fun _ _ _ => [], bonds := wBonds }

def wMol : Molecule := { hasFlexibleResidues := false, poses := [wPose] }

/- First pose classifies fine, the second raises KeyError mid-run. -/
def wBadMol : Molecule := { hasFlexibleResidues := false, poses := [wPose, wBadPose] }

noncomputable def wRunState : FPIState :=
  (FingerprintInteractions.run (FingerprintInteractions.mk0 wReceptor) [wMol]).1

def wRecord : PoseRecord := { name := "p", poseId := 0, hb := ["h_A:1:N"], vdw := [], water := [] }

/- One pose, one used hb label, one never-used vdw label (its column is
dropped by the encoder). -/
def wEncState : FPIState :=
  { data := [wRecord],
    uniq := { hb := ["h_A:1:N"], vdw := ["v_B:2"], water := [], reactive := [] },
    receptor := wReceptor }

def wRecord6 : PoseRecord :=
  { name := "p", poseId := 0, hb := ["h_A:1:N", "h_B:2:O"], vdw := ["v_B:2"], water := [] }

def wEncState6 : FPIState :=
  { data := [wRecord6],
    uniq := { hb := ["h_A:1:N", "h_B:2:O"], vdw := ["v_B:2"], water := [], reactive := [] },
    receptor := wReceptor }

/- The encoded table of wEncState (the unused vdw column was dropped). -/
def wDf : DataFrameModel :=
  { colTypes := ["hb"], colNames := ["A:1:N"], index := [("p", 1)], values := [[1]] }

/- The encoded tables of wEncState6 under two enumeration orders of the hb
vocabulary set. -/
def wDf6a : DataFrameModel :=
  { colTypes := ["hb", "hb", "vdw"], colNames := ["A:1:N", "B:2:O", "B:2"],
    index := [("p", 1)], values := [[1, 1, 1]] }

def wDf6b : DataFrameModel :=
  { colTypes := ["hb", "hb", "vdw"], colNames := ["B:2:O", "A:1:N", "B:2"],
    index := [("p", 1)], values := [[1, 1, 1]] }

/- Distance evaluations used by witnesses. -/

theorem normV_zero : normV wZero = 0 := by
  simp [normV, wZero]

theorem normV_x_axis (a : ℝ) (h : 0 ≤ a) : normV ⟨a, 0, 0⟩ = a := by
  simp only [normV]
  rw [show a * a + 0 * 0 + 0 * 0 = a ^ 2 by ring, Real.sqrt_sq h]

/--
C1: if the Euclidean distance between the acceptor atom position (acc_1) and
the donor-reference point (don_2) is strictly greater than the maximum
distance of the criterion, the validator returns False whatever the angle
routine would answer anywhere, i.e. no angle is computed and no
hydrogen-bond label can be emitted for the pair.
-/
theorem hb_reject_beyond_max_distance
    (ang : Vec3 → Vec3 → Option ℝ) (acc1 : Vec3) (acc2 : Option Vec3)
    (don1 : Option Vec3) (don2 : Vec3) (crit : List ℝ)
    (h : crit.getD 0 0 < normV (vsub acc1 don2)) :
    is_valid_hydrogen_bond_with ang acc1 acc2 don1 don2 crit = some false := by
  simp only [is_valid_hydrogen_bond_with]
  rw [if_neg (not_le.mpr h)]

/-- Witness for C1: points 5 apart against the 3.2 hb criterion, with the
angle routine of the source. -/
theorem hb_reject_beyond_max_distance_witness :
    (criteriaOf "hb_don").getD 0 0 < normV (vsub ⟨0, 0, 0⟩ ⟨5, 0, 0⟩) ∧
    is_valid_hydrogen_bond ⟨0, 0, 0⟩ (some ⟨1, 1, 1⟩) (some ⟨2, 0, 0⟩) ⟨5, 0, 0⟩
      (criteriaOf "hb_don") = some false := by
  have hc : criteriaOf "hb_don" = [(3.2 : ℝ), 120, 90] := rfl
  have hv : vsub (⟨0, 0, 0⟩ : Vec3) ⟨5, 0, 0⟩ = ⟨-5, 0, 0⟩ := by
    simp [vsub]
  have hd : normV (vsub (⟨0, 0, 0⟩ : Vec3) ⟨5, 0, 0⟩) = 5 := by
    rw [hv]
    simp only [normV]
    rw [show (-5 : ℝ) * -5 + 0 * 0 + 0 * 0 = 5 ^ 2 by ring,
      Real.sqrt_sq (by norm_num : (0 : ℝ) ≤ 5)]
  have hlt : (criteriaOf "hb_don").getD 0 0 < normV (vsub (⟨0, 0, 0⟩ : Vec3) ⟨5, 0, 0⟩) := by
    rw [hc, hd]; norm_num
  exact ⟨hlt, hb_reject_beyond_max_distance compute_angle _ _ _ _ _ hlt⟩

/--
C2: within the distance cutoff, when exactly one directional reference is
absent the corresponding angle term is the constant 180 and is never
computed from geometry (the statement holds for every angle routine `ang`),
so the result is exactly the single remaining angle comparison against its
minimum, for any criterion whose minimum angles do not exceed 180.
-/
theorem hb_nondirectional_angle_substitution
    (ang : Vec3 → Vec3 → Option ℝ) (acc1 don2 : Vec3) (crit : List ℝ)
    (hdist : normV (vsub acc1 don2) ≤ crit.getD 0 0) :
    (∀ a2 : Vec3, crit.getD 1 0 ≤ 180 →
      is_valid_hydrogen_bond_with ang acc1 (some a2) none don2 crit
        = some (nanGe (optDegrees (ang (vsub a2 acc1) (vsub don2 acc1))) (crit.getD 2 0))) ∧
    (∀ d1 : Vec3, crit.getD 2 0 ≤ 180 →
      is_valid_hydrogen_bond_with ang acc1 none (some d1) don2 crit
        = some (nanGe (optDegrees (ang (vsub don2 d1) (vsub acc1 d1))) (crit.getD 1 0))) := by
  constructor
  · intro a2 hcrit
    simp only [is_valid_hydrogen_bond_with, if_pos hdist]
    rw [decide_eq_true hcrit, Bool.true_and]
  · intro d1 hcrit
    simp only [is_valid_hydrogen_bond_with, if_pos hdist]
    rw [decide_eq_true hcrit, Bool.and_true]

/-- Witness for C2: distance 3 against the 3.2 water criterion, source angle
routine, both orientations of the absent reference. -/
theorem hb_nondirectional_angle_substitution_witness :
    normV (vsub ⟨3, 0, 0⟩ ⟨0, 0, 0⟩) ≤ (criteriaOf "water").getD 0 0 ∧
    (criteriaOf "water").getD 1 0 ≤ 180 ∧
    is_valid_hydrogen_bond ⟨3, 0, 0⟩ (some ⟨1, 1, 1⟩) none ⟨0, 0, 0⟩ (criteriaOf "water")
      = some (nanGe (optDegrees (compute_angle (vsub ⟨1, 1, 1⟩ ⟨3, 0, 0⟩)
          (vsub ⟨0, 0, 0⟩ ⟨3, 0, 0⟩))) ((criteriaOf "water").getD 2 0)) := by
  have hc : criteriaOf "water" = [(3.2 : ℝ), 120, 90] := rfl
  have hv : vsub (⟨3, 0, 0⟩ : Vec3) ⟨0, 0, 0⟩ = ⟨3, 0, 0⟩ := by
    simp [vsub]
  have hd : normV (vsub (⟨3, 0, 0⟩ : Vec3) ⟨0, 0, 0⟩) = 3 := by
    rw [hv, normV_x_axis 3 (by norm_num)]
  have hdist : normV (vsub (⟨3, 0, 0⟩ : Vec3) ⟨0, 0, 0⟩) ≤ (criteriaOf "water").getD 0 0 := by
    rw [hc, hd]; norm_num
  have hang : (criteriaOf "water").getD 1 0 ≤ (180 : ℝ) := by rw [hc]; norm_num
  exact ⟨hdist, hang,
    (hb_nondirectional_angle_substitution compute_angle _ _ _ hdist).1 _ hang⟩

/--
C8 counterexample: the source raises no DegenerateGeometry condition.  On a
zero-magnitude input vector the angle computation produces the NaN marker,
and a validator call whose donor coincides with its reference point returns
the plain value False: the NaN flowed into the angle comparison instead of
an error being raised.
-/
theorem compute_angle_zero_vector_no_error :
    compute_angle wZero ⟨1, 0, 0⟩ = none ∧
    is_valid_hydrogen_bond ⟨0, 0, 0⟩ (some ⟨1, 0, 0⟩) (some ⟨2, 0, 0⟩) ⟨2, 0, 0⟩
      (criteriaOf "hb_don") = some false := by
  have hzero : ∀ v : Vec3, compute_angle wZero v = none := fun v => by
    simp only [compute_angle]
    rw [if_pos (Or.inl normV_zero)]
  constructor
  · exact hzero _
  · have hc : criteriaOf "hb_don" = [(3.2 : ℝ), 120, 90] := rfl
    have hv : vsub (⟨0, 0, 0⟩ : Vec3) ⟨2, 0, 0⟩ = ⟨-2, 0, 0⟩ := by
      simp [vsub]
    have hd : normV (vsub (⟨0, 0, 0⟩ : Vec3) ⟨2, 0, 0⟩) = 2 := by
      rw [hv]
      simp only [normV]
      rw [show (-2 : ℝ) * -2 + 0 * 0 + 0 * 0 = 2 ^ 2 by ring,
        Real.sqrt_sq (by norm_num : (0 : ℝ) ≤ 2)]
    have hdist : normV (vsub (⟨0, 0, 0⟩ : Vec3) ⟨2, 0, 0⟩) ≤ (criteriaOf "hb_don").getD 0 0 := by
      rw [hc, hd]; norm_num
    have hdeg : vsub (⟨2, 0, 0⟩ : Vec3) ⟨2, 0, 0⟩ = wZero := by
      simp [vsub, wZero]
    simp only [is_valid_hydrogen_bond, is_valid_hydrogen_bond_with, if_pos hdist, hdeg, hzero]
    rfl

/--
C8 amended: a zero-magnitude input vector makes the angle computation yield
the NaN marker (no error condition is raised), and every subsequent `>=`
comparison on that marker evaluates to False, silently rejecting the pair.
-/
theorem compute_angle_zero_vector_nan (v1 v2 : Vec3)
    (h : normV v1 = 0 ∨ normV v2 = 0) :
    compute_angle v1 v2 = none ∧
    ∀ c : ℝ, nanGe (optDegrees (compute_angle v1 v2)) c = false := by
  have h1 : compute_angle v1 v2 = none := by
    simp only [compute_angle]
    rw [if_pos h]
  exact ⟨h1, fun c => by rw [h1]; rfl⟩

/-- Witness for the amended C8 at the zero vector. -/
theorem compute_angle_zero_vector_nan_witness :
    (normV wZero = 0 ∨ normV ⟨1, 2, 3⟩ = 0) ∧
    compute_angle wZero ⟨1, 2, 3⟩ = none ∧
    nanGe (optDegrees (compute_angle wZero ⟨1, 2, 3⟩)) 120 = false := by
  have h : normV wZero = 0 ∨ normV (⟨1, 2, 3⟩ : Vec3) = 0 := Or.inl normV_zero
  obtain ⟨h1, h2⟩ := compute_angle_zero_vector_nan wZero ⟨1, 2, 3⟩ h
  exact ⟨h, h1, h2 120⟩

/- Basic facts about set.update and the vocabulary order. -/

theorem subset_setUpdate_left (u adds : List String) : u ⊆ setUpdate u adds :=
  fun _ hx => List.mem_append_left _ hx

theorem subset_setUpdate_right (u adds : List String) : adds ⊆ setUpdate u adds := by
  intro x hx
  by_cases hxu : x ∈ u
  · exact List.mem_append_left _ hxu
  · refine List.mem_append_right _ ?_
    rw [List.mem_filter]
    exact ⟨hx, by simpa using hxu⟩

theorem uniqLe_refl (u : UniqueInteractions) : uniqLe u u :=
  ⟨List.Subset.refl _, List.Subset.refl _, List.Subset.refl _, List.Subset.refl _⟩

theorem uniqLe_trans {u v w : UniqueInteractions} (h1 : uniqLe u v) (h2 : uniqLe v w) :
    uniqLe u w :=
  ⟨h1.1.trans h2.1, h1.2.1.trans h2.2.1, h1.2.2.1.trans h2.2.2.1, h1.2.2.2.trans h2.2.2.2⟩

theorem uniqLe_uniqStep (uniq : UniqueInteractions)
    (tmp : List String × List String × List String) : uniqLe uniq (uniqStep uniq tmp) :=
  ⟨subset_setUpdate_left _ _, subset_setUpdate_left _ _, subset_setUpdate_left _ _,
   List.Subset.refl _⟩

theorem recordSub_mono {r : PoseRecord} {u v : UniqueInteractions}
    (h : recordSub r u) (hle : uniqLe u v) : recordSub r v :=
  ⟨h.1.trans hle.1, h.2.1.trans hle.2.1, h.2.2.trans hle.2.2.1⟩

theorem recStep_recordSub (pose : Pose) (uniq : UniqueInteractions)
    (tmp : List String × List String × List String) :
    recordSub (recStep pose tmp) (uniqStep uniq tmp) :=
  ⟨subset_setUpdate_right _ _, subset_setUpdate_right _ _, subset_setUpdate_right _ _⟩

/- Invariant of the pose loop: the vocabulary only grows, and every record in
the output list was already in the input list or has its label sets inside
the output vocabulary. -/
theorem runPoses_spec (valid : HBValid) (receptor : Receptor) (hasFlex : Bool) :
    ∀ (poses : List Pose) (uniq : UniqueInteractions) (acc : List PoseRecord),
      uniqLe uniq (runPoses valid receptor hasFlex uniq acc poses).1 ∧
      ∀ r ∈ (runPoses valid receptor hasFlex uniq acc poses).2.1,
        r ∈ acc ∨ recordSub r (runPoses valid receptor hasFlex uniq acc poses).1 := by
  intro poses
  induction poses with
  | nil =>
    intro uniq acc
    exact ⟨uniqLe_refl uniq, fun r hr => Or.inl hr⟩
  | cons pose rest ih =>
    intro uniq acc
    rcases hcl : classifyPose valid receptor hasFlex pose with _ | tmp
    · have heq : runPoses valid receptor hasFlex uniq acc (pose :: rest) = (uniq, acc, false) := by
        simp [runPoses, hcl]
      rw [heq]
      exact ⟨uniqLe_refl uniq, fun r hr => Or.inl hr⟩
    · have heq : runPoses valid receptor hasFlex uniq acc (pose :: rest) =
          runPoses valid receptor hasFlex (uniqStep uniq tmp) (acc ++ [recStep pose tmp]) rest := by
        simp [runPoses, hcl]
      rw [heq]
      obtain ⟨hmono, hrec⟩ := ih (uniqStep uniq tmp) (acc ++ [recStep pose tmp])
      refine ⟨uniqLe_trans (uniqLe_uniqStep uniq tmp) hmono, fun r hr => ?_⟩
      rcases hrec r hr with hin | hsub
      · rcases List.mem_append.mp hin with hacc | hnew
        · exact Or.inl hacc
        · have : r = recStep pose tmp := by simpa using hnew
          subst this
          exact Or.inr (recordSub_mono (recStep_recordSub pose uniq tmp) hmono)
      · exact Or.inr hsub

/- The same invariant for the molecule loop. -/
theorem runMolecules_spec (valid : HBValid) (receptor : Receptor) :
    ∀ (mols : List Molecule) (uniq : UniqueInteractions) (acc : List PoseRecord),
      uniqLe uniq (runMolecules valid receptor uniq acc mols).1 ∧
      ∀ r ∈ (runMolecules valid receptor uniq acc mols).2.1,
        r ∈ acc ∨ recordSub r (runMolecules valid receptor uniq acc mols).1 := by
  intro mols
  induction mols with
  | nil =>
    intro uniq acc
    exact ⟨uniqLe_refl uniq, fun r hr => Or.inl hr⟩
  | cons mol rest ih =>
    intro uniq acc
    obtain ⟨hpmono, hprec⟩ := runPoses_spec valid receptor mol.hasFlexibleResidues
      mol.poses uniq acc
    rcases hrp : runPoses valid receptor mol.hasFlexibleResidues uniq acc mol.poses
      with ⟨uniq2, acc2, ok⟩
    rw [hrp] at hpmono hprec
    cases ok
    · have heq : runMolecules valid receptor uniq acc (mol :: rest) = (uniq2, acc2, false) := by
        simp [runMolecules, hrp]
      rw [heq]
      exact ⟨hpmono, hprec⟩
    · have heq : runMolecules valid receptor uniq acc (mol :: rest) =
          runMolecules valid receptor uniq2 acc2 rest := by
        simp [runMolecules, hrp]
      rw [heq]
      obtain ⟨hmono, hrec⟩ := ih uniq2 acc2
      refine ⟨uniqLe_trans hpmono hmono, fun r hr => ?_⟩
      rcases hrec r hr with hin | hsub
      · rcases hprec r hin with hacc | hsub2
        · exact Or.inl hacc
        · exact Or.inr (recordSub_mono hsub2 hmono)
      · exact Or.inr hsub

/--
C3: one run call never removes a label: for each of the interaction types
hb, vdw and water, the vocabulary before the call is contained in the
vocabulary after the call (whether the call succeeds or raises), so along
any sequence of run calls the vocabulary after call N contains the
vocabulary after call N-1.
-/
theorem run_vocabulary_monotone (s : FPIState) (mols : List Molecule) :
    s.uniq.hb ⊆ (FingerprintInteractions.run s mols).1.uniq.hb ∧
    s.uniq.vdw ⊆ (FingerprintInteractions.run s mols).1.uniq.vdw ∧
    s.uniq.water ⊆ (FingerprintInteractions.run s mols).1.uniq.water := by
  have h := (runMolecules_spec is_valid_hydrogen_bond s.receptor mols s.uniq []).1
  rcases hrm : runMolecules is_valid_hydrogen_bond s.receptor s.uniq [] mols
    with ⟨uniq2, local2, ok⟩
  rw [hrm] at h
  cases ok
  · simp only [FingerprintInteractions.run, runWith, hrm]
    exact ⟨h.1, h.2.1, h.2.2.1⟩
  · simp only [FingerprintInteractions.run, runWith, hrm]
    exact ⟨h.1, h.2.1, h.2.2.1⟩

/--
C10: when a run call raises partway through (second component False), the
per-pose record list self._data is exactly what it was before the call: the
records of the poses classified before the raise were only collected in a
local list that is abandoned (while self._unique_interactions may keep their
labels, as the witness shows on a concrete failing run).
-/
theorem run_exception_preserves_data (s : FPIState) (mols : List Molecule)
    (h : (FingerprintInteractions.run s mols).2 = false) :
    (FingerprintInteractions.run s mols).1.data = s.data := by
  rcases hrm : runMolecules is_valid_hydrogen_bond s.receptor s.uniq [] mols
    with ⟨uniq2, local2, ok⟩
  cases ok
  · simp only [FingerprintInteractions.run, runWith, hrm]
  · simp only [FingerprintInteractions.run, runWith, hrm] at h
    cases h

/-- Witness for C10: a run whose second pose has an unrecognized atom type
raises after the first pose classified; data stays empty while the vdw label
of the first pose is already in the vocabulary. -/
theorem run_exception_preserves_data_witness :
    (FingerprintInteractions.run (FingerprintInteractions.mk0 wReceptor) [wBadMol]).2 = false ∧
    (FingerprintInteractions.run (FingerprintInteractions.mk0 wReceptor) [wBadMol]).1.data
      = (FingerprintInteractions.mk0 wReceptor).data ∧
    (FingerprintInteractions.run (FingerprintInteractions.mk0 wReceptor) [wBadMol]).1.uniq.vdw
      = ["v_A:1"] :=
  ⟨by decide, run_exception_preserves_data _ _ (by decide), by decide⟩

/--
C4: on every reachable accumulator state, each recorded pose has its hb, vdw
and water label sets inside the corresponding type-set of the global
vocabulary; in particular this holds at encode time for every recorded pose.
-/
theorem reachable_pose_records_subset_vocabulary (s : FPIState)
    (hs : FingerprintInteractions.Reachable s) :
    ∀ r ∈ s.data,
      r.hb ⊆ s.uniq.hb ∧ r.vdw ⊆ s.uniq.vdw ∧ r.water ⊆ s.uniq.water := by
  induction hs with
  | mk0 receptor =>
    intro r hr
    simp [FingerprintInteractions.mk0] at hr
  | step s mols hs ih =>
    have hspec := runMolecules_spec is_valid_hydrogen_bond s.receptor mols s.uniq []
    rcases hrm : runMolecules is_valid_hydrogen_bond s.receptor s.uniq [] mols
      with ⟨uniq2, local2, ok⟩
    rw [hrm] at hspec
    cases ok
    · simp only [FingerprintInteractions.run, runWith, hrm]
      intro r hr
      exact recordSub_mono (ih r hr) hspec.1
    · simp only [FingerprintInteractions.run, runWith, hrm]
      intro r hr
      rcases List.mem_append.mp hr with hold | hnew
      · exact recordSub_mono (ih r hold) hspec.1
      · rcases hspec.2 r hnew with habs | hsub
        · cases habs
        · exact hsub

/-- Witness for C4: the state after one successful vdw-only run is reachable,
has one recorded pose, and satisfies the subset property. -/
theorem reachable_pose_records_subset_vocabulary_witness :
    FingerprintInteractions.Reachable wRunState ∧
    wRunState.data.length = 1 ∧
    ∀ r ∈ wRunState.data,
      r.hb ⊆ wRunState.uniq.hb ∧ r.vdw ⊆ wRunState.uniq.vdw ∧
      r.water ⊆ wRunState.uniq.water := by
  have hreach : FingerprintInteractions.Reachable wRunState :=
    FingerprintInteractions.Reachable.step (FingerprintInteractions.mk0 wReceptor) [wMol]
      (FingerprintInteractions.Reachable.mk0 wReceptor)
  exact ⟨hreach, by decide, reachable_pose_records_subset_vocabulary wRunState hreach⟩

/- Elementary facts about List.mapM over Option. -/

theorem mapM_option_length {α β : Type} {f : α → Option β} :
    ∀ {l : List α} {res : List β}, l.mapM f = some res → res.length = l.length := by
  intro l
  induction l with
  | nil =>
    intro res h
    rw [List.mapM_nil] at h
    cases h
    rfl
  | cons a t ih =>
    intro res h
    rw [List.mapM_cons] at h
    cases hfa : f a with
    | none => rw [hfa] at h; cases h
    | some b =>
      rw [hfa] at h
      cases hmt : t.mapM f with
      | none => rw [hmt] at h; cases h
      | some bs =>
        rw [hmt] at h
        cases h
        simp [ih hmt]

theorem mapM_option_getElem {α β : Type} {f : α → Option β} :
    ∀ {l : List α} {res : List β}, l.mapM f = some res →
      ∀ i (h1 : i < l.length) (h2 : i < res.length), f l[i] = some res[i] := by
  intro l
  induction l with
  | nil =>
    intro res h i h1 h2
    cases h1
  | cons a t ih =>
    intro res h i h1 h2
    rw [List.mapM_cons] at h
    cases hfa : f a with
    | none => rw [hfa] at h; cases h
    | some b =>
      rw [hfa] at h
      cases hmt : t.mapM f with
      | none => rw [hmt] at h; cases h
      | some bs =>
        rw [hmt] at h
        cases h
        cases i with
        | zero => simpa using hfa
        | succ i =>
          have h1t : i < t.length := by simpa using h1
          have h2t : i < bs.length := by simpa using h2
          simpa using ih hmt i h1t h2t

theorem mapM_option_mem_iff {α β : Type} {f : α → Option β} :
    ∀ {l : List α} {res : List β}, l.mapM f = some res →
      ∀ b, (b ∈ res ↔ ∃ a ∈ l, f a = some b) := by
  intro l
  induction l with
  | nil =>
    intro res h b
    rw [List.mapM_nil] at h
    cases h
    simp
  | cons a t ih =>
    intro res h b
    rw [List.mapM_cons] at h
    cases hfa : f a with
    | none => rw [hfa] at h; cases h
    | some c =>
      rw [hfa] at h
      cases hmt : t.mapM f with
      | none => rw [hmt] at h; cases h
      | some bs =>
        rw [hmt] at h
        cases h
        constructor
        · intro hb
          rcases List.mem_cons.mp hb with hb | hb
          · exact ⟨a, List.mem_cons_self a t, by rw [hfa, hb]⟩
          · rcases (ih hmt b).mp hb with ⟨x, hx, hfx⟩
            exact ⟨x, List.mem_cons_of_mem a hx, hfx⟩
        · rintro ⟨x, hx, hfx⟩
          rcases List.mem_cons.mp hx with hx | hx
          · subst hx
            rw [hfa] at hfx
            cases hfx
            exact List.mem_cons_self _ _
          · exact List.mem_cons_of_mem _ ((ih hmt b).mpr ⟨x, hx, hfx⟩)

/- Facts about the encoder dict. -/

theorem encoderOf_eq_none_iff : ∀ (ls : List String) (x : String),
    encoderOf ls x = none ↔ ¬ x ∈ ls := by
  intro ls
  induction ls with
  | nil => intro x; simp [encoderOf]
  | cons l rest ih =>
    intro x
    simp only [encoderOf, List.mem_cons]
    cases hrest : encoderOf rest x with
    | some k =>
      have hxr : x ∈ rest := by
        by_contra hc
        rw [(ih x).mpr hc] at hrest
        cases hrest
      simp [hxr]
    | none =>
      have hx : ¬ x ∈ rest := (ih x).mp hrest
      by_cases hxl : x = l
      · simp [hxl]
      · simp [hxl, hx]

theorem encoderOf_getElem : ∀ (ls : List String) (x : String) (j : Nat),
    encoderOf ls x = some j → ∃ h : j < ls.length, ls[j] = x := by
  intro ls
  induction ls with
  | nil => intro x j h; cases h
  | cons l rest ih =>
    intro x j h
    simp only [encoderOf] at h
    cases hrest : encoderOf rest x with
    | some k =>
      rw [hrest] at h
      cases h
      obtain ⟨hk, hget⟩ := ih x k hrest
      exact ⟨by simpa using Nat.succ_lt_succ hk, by simpa using hget⟩
    | none =>
      rw [hrest] at h
      by_cases hxl : x = l
      · rw [if_pos hxl] at h
        cases h
        exact ⟨by simp, by simpa using hxl.symm⟩
      · rw [if_neg hxl] at h
        cases h

theorem encoderOf_of_getElem : ∀ (ls : List String), ls.Nodup →
    ∀ (j : Nat) (h : j < ls.length), encoderOf ls (ls[j]) = some j := by
  intro ls
  induction ls with
  | nil => intro _ j h; cases h
  | cons l rest ih =>
    intro hnd j h
    have hndr : rest.Nodup := (List.nodup_cons.mp hnd).2
    have hlr : ¬ l ∈ rest := (List.nodup_cons.mp hnd).1
    cases j with
    | zero =>
      have hget : (l :: rest)[0] = l := rfl
      have hnone : encoderOf rest l = none := (encoderOf_eq_none_iff rest l).mpr hlr
      rw [hget]
      simp [encoderOf, hnone]
    | succ j =>
      have hj : j < rest.length := by simpa using h
      have hget : (l :: rest)[j + 1] = rest[j] := by simp
      rw [hget]
      simp [encoderOf, ih hndr j hj]

/- Decomposition of a successful to_dataframe call. -/

theorem toDataframeFrom_eq_some {data : List PoseRecord}
    {hbE vdwE waterE reactE : List String} {df : DataFrameModel}
    (hdf : toDataframeFrom data hbE vdwE waterE reactE = some df) :
    ∃ rows, data.mapM (rowOf (hbE ++ vdwE ++ waterE ++ reactE)) = some rows ∧
      df = { colTypes := (keepOf (hbE ++ vdwE ++ waterE ++ reactE).length rows).map
               (fun j => (colTypesOf hbE vdwE waterE reactE).getD j ""),
             colNames := (keepOf (hbE ++ vdwE ++ waterE ++ reactE).length rows).map
               (fun j => ((hbE ++ vdwE ++ waterE ++ reactE).map (fun r => r.drop 2)).getD j ""),
             index := data.map (fun rec => (rec.name, rec.poseId + 1)),
             values := rows.map (fun row =>
               (keepOf (hbE ++ vdwE ++ waterE ++ reactE).length rows).map
                 (fun j => row.getD j 0)) } := by
  simp only [toDataframeFrom] at hdf
  split at hdf
  · cases hdf
  · split at hdf
    · cases hdf
    · next rows heq => exact ⟨rows, heq, (Option.some.inj hdf).symm⟩

/--
C9: the row index of the encoded table is, in the order the poses were
recorded, the pair of the pose name and the stored pose_id plus one.
-/
theorem to_dataframe_row_index (s : FPIState) (df : DataFrameModel)
    (hdf : FingerprintInteractions.to_dataframe s = some df) :
    df.index = s.data.map (fun rec => (rec.name, rec.poseId + 1)) := by
  obtain ⟨rows, _, hdfeq⟩ := toDataframeFrom_eq_some hdf
  rw [hdfeq]

/-- Witness for C9 on a concrete one-pose state with pose_id 0. -/
theorem to_dataframe_row_index_witness :
    FingerprintInteractions.to_dataframe wEncState = some wDf ∧
    wDf.index = wEncState.data.map (fun rec => (rec.name, rec.poseId + 1)) :=
  ⟨by decide, to_dataframe_row_index wEncState wDf (by decide)⟩

/--
C5: every interaction column of a table the encoder returns has a nonzero
sum over its rows (all-zero columns of the initially built matrix are
dropped), while one row per recorded pose is retained, including all-zero
rows.
-/
theorem to_dataframe_no_zero_columns (s : FPIState) (df : DataFrameModel)
    (hne : s.data ≠ [])
    (hdf : FingerprintInteractions.to_dataframe s = some df) :
    (∀ col ∈ columnsOf df, col.2.sum ≠ 0) ∧ df.values.length = s.data.length := by
  obtain ⟨rows, hrows, hdfeq⟩ := toDataframeFrom_eq_some hdf
  subst hdfeq
  constructor
  · intro col hcol
    simp only [columnsOf] at hcol
    rw [List.mem_map] at hcol
    obtain ⟨k, hk, rfl⟩ := hcol
    rw [List.mem_range] at hk
    have hkk : k < (keepOf (s.uniq.hb ++ s.uniq.vdw ++ s.uniq.water ++ s.uniq.reactive).length
        rows).length := by
      simpa using hk
    show ((rows.map (fun row =>
        (keepOf (s.uniq.hb ++ s.uniq.vdw ++ s.uniq.water ++ s.uniq.reactive).length rows).map
          (fun j => row.getD j 0))).map (fun row2 => row2.getD k 0)).sum ≠ 0
    have hcol2 : (rows.map (fun row =>
        (keepOf (s.uniq.hb ++ s.uniq.vdw ++ s.uniq.water ++ s.uniq.reactive).length rows).map
          (fun j => row.getD j 0))).map (fun row2 => row2.getD k 0)
        = rows.map (fun row => row.getD
            ((keepOf (s.uniq.hb ++ s.uniq.vdw ++ s.uniq.water ++ s.uniq.reactive).length
              rows)[k]) 0) := by
      rw [List.map_map]
      refine List.map_congr_left (fun row hrow => ?_)
      have hlen : k < ((keepOf (s.uniq.hb ++ s.uniq.vdw ++ s.uniq.water ++
          s.uniq.reactive).length rows).map (fun j => row.getD j 0)).length := by
        simpa using hkk
      show ((keepOf (s.uniq.hb ++ s.uniq.vdw ++ s.uniq.water ++ s.uniq.reactive).length
          rows).map (fun j => row.getD j 0)).getD k 0 = _
      rw [List.getD_eq_getElem _ _ hlen, List.getElem_map]
    rw [hcol2]
    have hmem : (keepOf (s.uniq.hb ++ s.uniq.vdw ++ s.uniq.water ++ s.uniq.reactive).length
        rows)[k] ∈ keepOf (s.uniq.hb ++ s.uniq.vdw ++ s.uniq.water ++ s.uniq.reactive).length
        rows := List.getElem_mem hkk
    simp only [keepOf] at hmem
    rw [List.mem_filter] at hmem
    exact of_decide_eq_true hmem.2
  · simp [mapM_option_length hrows]

/-- Witness for C5: a state with one recorded pose, a used hb label and an
unused vdw label; the encoded table has one column, with sum 1, and one row. -/
theorem to_dataframe_no_zero_columns_witness :
    wEncState.data ≠ [] ∧
    FingerprintInteractions.to_dataframe wEncState = some wDf ∧
    ((∀ col ∈ columnsOf wDf, col.2.sum ≠ 0) ∧ wDf.values.length = wEncState.data.length) :=
  ⟨by decide, by decide, to_dataframe_no_zero_columns wEncState wDf (by decide) (by decide)⟩

/- getD of a mapped list inside the range of the list. -/
theorem getD_map_of_lt {α β : Type} (l : List α) (f : α → β) (d : β) (dd : α)
    (j : Nat) (hj : j < l.length) : (l.map f).getD j d = f (l.getD j dd) := by
  have hj2 : j < (l.map f).length := by simpa using hj
  rw [List.getD_eq_getElem _ _ hj2, List.getElem_map, List.getD_eq_getElem _ _ hj]

/- The cell vector of a label has a nonzero sum exactly when some recorded
pose carries the label. -/
theorem memVec_sum_ne_zero_iff (data : List PoseRecord) (lab : String) :
    (memVec data lab).sum ≠ 0 ↔ ∃ rec ∈ data, lab ∈ recLabels rec := by
  rw [Ne, List.sum_eq_zero_iff]
  constructor
  · intro hne
    by_contra hc
    push_neg at hc
    apply hne
    intro x hx
    rw [memVec, List.mem_map] at hx
    obtain ⟨rec, hrec, rfl⟩ := hx
    rw [if_neg (hc rec hrec)]
  · rintro ⟨rec, hrec, hmem⟩ hall
    have h1 : (1 : Nat) ∈ memVec data lab :=
      List.mem_map.mpr ⟨rec, hrec, by rw [if_pos hmem]⟩
    exact one_ne_zero (hall 1 h1)

/- Characterization of one encoded matrix row: cell j is 1 exactly when the
label at position j of the vocabulary enumeration occurs in the pose. -/
theorem rowOf_cells {all : List String} (hnd : all.Nodup) {rec : PoseRecord} {row : List Nat}
    (h : rowOf all rec = some row) :
    row.length = all.length ∧
    ∀ j (hj : j < all.length),
      row.getD j 0 = if all[j] ∈ recLabels rec then 1 else 0 := by
  simp only [rowOf] at h
  cases hm : (rec.hb ++ rec.vdw ++ rec.water).mapM (encoderOf all) with
  | none => rw [hm] at h; cases h
  | some idxs =>
    rw [hm] at h
    cases h
    constructor
    · simp
    · intro j hj
      have hj2 : j < ((List.range all.length).map
          (fun j => if j ∈ idxs then 1 else 0)).length := by simpa using hj
      rw [List.getD_eq_getElem _ _ hj2, List.getElem_map, List.getElem_range]
      have hiff : j ∈ idxs ↔ all[j] ∈ recLabels rec := by
        rw [mapM_option_mem_iff hm j]
        constructor
        · rintro ⟨a, ha, hfa⟩
          obtain ⟨hlt, hget⟩ := encoderOf_getElem all a j hfa
          rw [show all[j] = a from hget]
          exact ha
        · intro hmem
          exact ⟨all[j], hmem, encoderOf_of_getElem all hnd j hj⟩
      rw [if_congr hiff rfl rfl]

/- Pulling a filter-and-map over positions of a list back to the list itself. -/
theorem range_filter_map_getD {α β : Type} :
    ∀ (T : List α) (d : α) (q : α → Bool) (G : α → β),
      ((List.range T.length).filter (fun j => q (T.getD j d))).map (fun j => G (T.getD j d))
        = (T.filter q).map G := by
  intro T
  induction T with
  | nil => intro d q G; simp
  | cons a t ih =>
    intro d q G
    rw [List.length_cons, List.range_succ_eq_map]
    have hp : ((fun j => q ((a :: t).getD j d)) ∘ Nat.succ) = fun j => q (t.getD j d) := by
      funext j
      simp [Function.comp]
    have hg : ((fun j => G ((a :: t).getD j d)) ∘ Nat.succ) = fun j => G (t.getD j d) := by
      funext j
      simp [Function.comp]
    cases hqa : q a with
    | true =>
      rw [List.filter_cons, List.filter_cons]
      simp only [List.getD_cons_zero, hqa, if_true]
      rw [List.map_cons, List.filter_map, List.map_map, hp, hg, ih d q G,
        List.map_cons, List.getD_cons_zero]
    | false =>
      rw [List.filter_cons, List.filter_cons]
      simp only [List.getD_cons_zero, hqa, Bool.false_eq_true, if_false]
      rw [List.filter_map, List.map_map, hp, hg, ih d q G]

/-
Structure of a successful encode on a duplicate-free vocabulary enumeration:
the surviving columns are, in enumeration order, exactly the typed labels
that occur in some recorded pose, each carrying its (type, stripped-name)
header and its per-pose 0/1 cell vector; the row index lists the recorded
poses in order.
-/
theorem toDataframeFrom_spec (data : List PoseRecord)
    (hbE vdwE waterE reactE : List String) (df : DataFrameModel)
    (hnd : (hbE ++ vdwE ++ waterE ++ reactE).Nodup)
    (hdf : toDataframeFrom data hbE vdwE waterE reactE = some df) :
    columnsOf df = ((typedLabels hbE vdwE waterE reactE).filter
        (fun p => decide (∃ rec ∈ data, p.2 ∈ recLabels rec))).map
      (fun p => ((p.1, p.2.drop 2), memVec data p.2)) ∧
    df.index = data.map (fun rec => (rec.name, rec.poseId + 1)) := by
  obtain ⟨rows, hrows, hdfeq⟩ := toDataframeFrom_eq_some hdf
  subst hdfeq
  refine ⟨?_, rfl⟩
  have hTsnd : (typedLabels hbE vdwE waterE reactE).map Prod.snd
      = hbE ++ vdwE ++ waterE ++ reactE := by
    simp [typedLabels, List.map_append, List.map_map, Function.comp]
  have hTfst : (typedLabels hbE vdwE waterE reactE).map Prod.fst
      = colTypesOf hbE vdwE waterE reactE := by
    simp [typedLabels, colTypesOf, List.map_append, List.map_map, Function.comp]
  have hTlen : (hbE ++ vdwE ++ waterE ++ reactE).length
      = (typedLabels hbE vdwE waterE reactE).length := by
    rw [← hTsnd, List.length_map]
  have hrl : rows.length = data.length := mapM_option_length hrows
  have hcell : ∀ i (hi1 : i < rows.length) (hi2 : i < data.length) j
      (hj : j < (hbE ++ vdwE ++ waterE ++ reactE).length),
      (rows[i]).getD j 0
        = if (hbE ++ vdwE ++ waterE ++ reactE)[j] ∈ recLabels (data[i]) then 1 else 0 := by
    intro i hi1 hi2 j hj
    exact (rowOf_cells hnd (mapM_option_getElem hrows i hi2 hi1)).2 j hj
  have hcolvec : ∀ j (hj : j < (hbE ++ vdwE ++ waterE ++ reactE).length),
      rows.map (fun row => row.getD j 0)
        = memVec data ((hbE ++ vdwE ++ waterE ++ reactE)[j]) := by
    intro j hj
    refine List.ext_getElem (by simp [hrl, memVec]) ?_
    intro i h1 h2
    have h1r : i < rows.length := by simpa using h1
    have h2d : i < data.length := by simpa [memVec] using h2
    rw [List.getElem_map, hcell i h1r h2d j hj]
    simp [memVec]
  have hkeep : keepOf (hbE ++ vdwE ++ waterE ++ reactE).length rows
      = (List.range (hbE ++ vdwE ++ waterE ++ reactE).length).filter
          (fun j => decide (∃ rec ∈ data,
            ((hbE ++ vdwE ++ waterE ++ reactE).getD j "") ∈ recLabels rec)) := by
    simp only [keepOf]
    refine List.filter_congr ?_
    intro j hj
    rw [List.mem_range] at hj
    rw [List.getD_eq_getElem _ _ hj, hcolvec j hj]
    exact decide_eq_decide.mpr (memVec_sum_ne_zero_iff data _)
  have hcols : columnsOf
      { colTypes := (keepOf (hbE ++ vdwE ++ waterE ++ reactE).length rows).map
          (fun j => (colTypesOf hbE vdwE waterE reactE).getD j ""),
        colNames := (keepOf (hbE ++ vdwE ++ waterE ++ reactE).length rows).map
          (fun j => ((hbE ++ vdwE ++ waterE ++ reactE).map (fun r => r.drop 2)).getD j ""),
        index := data.map (fun rec => (rec.name, rec.poseId + 1)),
        values := rows.map (fun row =>
          (keepOf (hbE ++ vdwE ++ waterE ++ reactE).length rows).map
            (fun j => row.getD j 0)) }
      = (keepOf (hbE ++ vdwE ++ waterE ++ reactE).length rows).map
          (fun j => (((colTypesOf hbE vdwE waterE reactE).getD j "",
            ((hbE ++ vdwE ++ waterE ++ reactE).map (fun r => r.drop 2)).getD j ""),
            rows.map (fun row => row.getD j 0))) := by
    simp only [columnsOf]
    refine List.ext_getElem (by simp) ?_
    intro k h1 h2
    have hkk : k < (keepOf (hbE ++ vdwE ++ waterE ++ reactE).length rows).length := by
      simpa using h2
    rw [List.getElem_map, List.getElem_map, List.getElem_range]
    congr 1
    · congr 1
      · rw [getD_map_of_lt _ _ "" 0 k hkk, List.getD_eq_getElem _ _ hkk]
      · rw [getD_map_of_lt _ _ "" 0 k hkk, List.getD_eq_getElem _ _ hkk]
    · rw [List.map_map]
      refine List.map_congr_left (fun row hrow => ?_)
      show ((keepOf (hbE ++ vdwE ++ waterE ++ reactE).length rows).map
        (fun j => row.getD j 0)).getD k 0 = _
      rw [getD_map_of_lt _ _ 0 0 k hkk, List.getD_eq_getElem _ _ hkk]
  rw [hcols, hkeep]
  have hfil : (List.range (hbE ++ vdwE ++ waterE ++ reactE).length).filter
      (fun j => decide (∃ rec ∈ data,
        ((hbE ++ vdwE ++ waterE ++ reactE).getD j "") ∈ recLabels rec))
      = (List.range (typedLabels hbE vdwE waterE reactE).length).filter
        (fun j => decide (∃ rec ∈ data,
          ((typedLabels hbE vdwE waterE reactE).getD j ("", "")).2 ∈ recLabels rec)) := by
    rw [hTlen]
    refine List.filter_congr ?_
    intro j hj
    rw [List.mem_range] at hj
    have hj2 : j < (hbE ++ vdwE ++ waterE ++ reactE).length := by rw [hTlen]; exact hj
    have hsnd : (hbE ++ vdwE ++ waterE ++ reactE).getD j ""
        = ((typedLabels hbE vdwE waterE reactE).getD j ("", "")).2 := by
      rw [← hTsnd]
      exact getD_map_of_lt _ _ "" ("", "") j hj
    rw [hsnd]
  rw [hfil]
  have hmapc : ((List.range (typedLabels hbE vdwE waterE reactE).length).filter
      (fun j => decide (∃ rec ∈ data,
        ((typedLabels hbE vdwE waterE reactE).getD j ("", "")).2 ∈ recLabels rec))).map
      (fun j => (((colTypesOf hbE vdwE waterE reactE).getD j "",
        ((hbE ++ vdwE ++ waterE ++ reactE).map (fun r => r.drop 2)).getD j ""),
        rows.map (fun row => row.getD j 0)))
      = ((List.range (typedLabels hbE vdwE waterE reactE).length).filter
      (fun j => decide (∃ rec ∈ data,
        ((typedLabels hbE vdwE waterE reactE).getD j ("", "")).2 ∈ recLabels rec))).map
      (fun j => ((((typedLabels hbE vdwE waterE reactE).getD j ("", "")).1,
        ((typedLabels hbE vdwE waterE reactE).getD j ("", "")).2.drop 2),
        memVec data ((typedLabels hbE vdwE waterE reactE).getD j ("", "")).2)) := by
    refine List.map_congr_left (fun j hjmem => ?_)
    have hj : j < (typedLabels hbE vdwE waterE reactE).length :=
      List.mem_range.mp (List.mem_filter.mp hjmem).1
    have hj2 : j < (hbE ++ vdwE ++ waterE ++ reactE).length := by rw [hTlen]; exact hj
    have hsnd : (hbE ++ vdwE ++ waterE ++ reactE).getD j ""
        = ((typedLabels hbE vdwE waterE reactE).getD j ("", "")).2 := by
      rw [← hTsnd]
      exact getD_map_of_lt _ _ "" ("", "") j hj
    congr 1
    · congr 1
      · rw [← hTfst]
        exact getD_map_of_lt _ _ "" ("", "") j hj
      · rw [getD_map_of_lt _ _ "" "" j hj2, hsnd]
    · rw [hcolvec j hj2,
        show (hbE ++ vdwE ++ waterE ++ reactE)[j]
            = (hbE ++ vdwE ++ waterE ++ reactE).getD j ""
          from (List.getD_eq_getElem _ "" hj2).symm,
        hsnd]
  rw [hmapc]
  exact range_filter_map_getD (typedLabels hbE vdwE waterE reactE) ("", "")
    (fun p => decide (∃ rec ∈ data, p.2 ∈ recLabels rec))
    (fun p => ((p.1, p.2.drop 2), memVec data p.2))

/--
C6: to_dataframe reads the accumulator without modifying it (in this
embedding it is a pure function of the state), and two encodes of the same
state agree cell by cell: whatever orders the four vocabulary sets are
enumerated in, the resulting tables hold the same columns — identified by
their (type, name) header and carrying identical per-pose cell vectors —
up to column order, and identical row indexes.  The Nodup hypothesis is the
set semantics of the vocabulary (each label stored once), which the type
prefixes v_/h_/w_ keep disjoint across the four sets.
-/
theorem to_dataframe_cells_order_independent
    (s : FPIState) (h1 v1 w1 r1 h2 v2 w2 r2 : List String) (df1 df2 : DataFrameModel)
    (hph1 : h1.Perm s.uniq.hb) (hpv1 : v1.Perm s.uniq.vdw) (hpw1 : w1.Perm s.uniq.water)
    (hpr1 : r1.Perm s.uniq.reactive)
    (hph2 : h2.Perm s.uniq.hb) (hpv2 : v2.Perm s.uniq.vdw) (hpw2 : w2.Perm s.uniq.water)
    (hpr2 : r2.Perm s.uniq.reactive)
    (hnd : (s.uniq.hb ++ s.uniq.vdw ++ s.uniq.water ++ s.uniq.reactive).Nodup)
    (hdf1 : toDataframeFrom s.data h1 v1 w1 r1 = some df1)
    (hdf2 : toDataframeFrom s.data h2 v2 w2 r2 = some df2) :
    (columnsOf df1).Perm (columnsOf df2) ∧ df1.index = df2.index := by
  have hap1 : (h1 ++ v1 ++ w1 ++ r1).Perm
      (s.uniq.hb ++ s.uniq.vdw ++ s.uniq.water ++ s.uniq.reactive) :=
    ((hph1.append hpv1).append hpw1).append hpr1
  have hap2 : (h2 ++ v2 ++ w2 ++ r2).Perm
      (s.uniq.hb ++ s.uniq.vdw ++ s.uniq.water ++ s.uniq.reactive) :=
    ((hph2.append hpv2).append hpw2).append hpr2
  have hnd1 : (h1 ++ v1 ++ w1 ++ r1).Nodup := hap1.nodup_iff.mpr hnd
  have hnd2 : (h2 ++ v2 ++ w2 ++ r2).Nodup := hap2.nodup_iff.mpr hnd
  obtain ⟨hc1, hi1⟩ := toDataframeFrom_spec s.data h1 v1 w1 r1 df1 hnd1 hdf1
  obtain ⟨hc2, hi2⟩ := toDataframeFrom_spec s.data h2 v2 w2 r2 df2 hnd2 hdf2
  have hT : (typedLabels h1 v1 w1 r1).Perm (typedLabels h2 v2 w2 r2) := by
    unfold typedLabels
    exact ((((hph1.trans hph2.symm).map _).append
      ((hpv1.trans hpv2.symm).map _)).append
      ((hpw1.trans hpw2.symm).map _)).append
      ((hpr1.trans hpr2.symm).map _)
  constructor
  · rw [hc1, hc2]
    exact (hT.filter _).map _
  · rw [hi1, hi2]

/-- Witness for C6: the same one-pose state encoded with the hb vocabulary
in two different orders; the first cell of the hb column agrees. -/
theorem to_dataframe_cells_order_independent_witness :
    (["h_A:1:N", "h_B:2:O"].Perm wEncState6.uniq.hb ∧
     ["h_B:2:O", "h_A:1:N"].Perm wEncState6.uniq.hb ∧
     (wEncState6.uniq.hb ++ wEncState6.uniq.vdw ++ wEncState6.uniq.water ++
       wEncState6.uniq.reactive).Nodup ∧
     toDataframeFrom wEncState6.data ["h_A:1:N", "h_B:2:O"] ["v_B:2"] [] [] = some wDf6a ∧
     toDataframeFrom wEncState6.data ["h_B:2:O", "h_A:1:N"] ["v_B:2"] [] [] = some wDf6b) ∧
    (columnsOf wDf6a).Perm (columnsOf wDf6b) ∧ wDf6a.index = wDf6b.index :=
  ⟨⟨by decide, by decide, by decide, by decide, by decide⟩,
   to_dataframe_cells_order_independent wEncState6
     ["h_A:1:N", "h_B:2:O"] ["v_B:2"] [] [] ["h_B:2:O", "h_A:1:N"] ["v_B:2"] [] []
     wDf6a wDf6b (by decide) (by decide) (by decide) (by decide) (by decide) (by decide)
     (by decide) (by decide) (by decide) (by decide) (by decide)⟩

/--
C7 (code bug): on a freshly constructed FingerprintInteractions object the
vocabulary is empty, so to_dataframe hands pandas.MultiIndex.from_tuples an
empty list, which raises TypeError (it cannot infer the number of levels)
instead of returning an empty table.
-/
theorem to_dataframe_fresh_state_raises (receptor : Receptor) :
    FingerprintInteractions.to_dataframe (FingerprintInteractions.mk0 receptor) = none := rfl
